import Mathlib

/-!
# Verification of the ADUP router core (`adup/router.py`)

A shallow embedding of the protocol state machine of `Router` from
`src/adup/router.py`.  Python dicts are modelled as association lists
(`List (κ × α)`) preserving insertion order; Python floats are modelled as
exact rationals (`ℚ`); mutation is modelled by explicit state passing on
`RouterState`.  Console printing, the simpy process plumbing and the
convergence bookkeeping fields that no claim reads are not modelled;
everything that touches the routing tables is translated line by line.
-/

set_option linter.unusedVariables false

namespace ADUP

/-- Link metrics carried by a HELLO packet and stored per neighbor
(`neighbor_table[n]['metrics']` in `router.py`). -/
structure Metrics where
  delay : ℚ
  jitter : ℚ
  packet_loss : ℚ
  congestion : ℚ
  link_stability : ℚ
  deriving Repr, DecidableEq

/-- One neighbor-table record: `{'last_seen': now, 'metrics': {...}}`. -/
structure NeighborInfo where
  last_seen : ℚ
  metrics : Metrics
  deriving Repr, DecidableEq

/-- The metrics sub-record of a FIB entry.  Directly connected (SELF)
entries in the source carry only `total_delay`/`total_cost`; we keep the
full record with zeroed auxiliary fields for them. -/
structure FibMetrics where
  total_cost : ℚ
  stability : ℚ
  congestion : ℚ
  packet_loss : ℚ
  selection_reason : String
  deriving Repr, DecidableEq

/-- A FIB entry: `{'next_hop': ..., 'metrics': {...}}`. -/
structure FibEntry where
  next_hop : String
  metrics : FibMetrics
  deriving Repr, DecidableEq

/-- `ADUP_Route_Entry` from `adup/packets.py` (the fields `send_update`
fills).  `total_delay` carries the advertised cost as a machine integer. -/
structure RouteEntry where
  prefix_len : ℤ
  dest_network : String
  total_delay : ℤ
  total_bandwidth : ℤ
  total_jitter : ℤ
  total_packet_loss : ℤ
  total_congestion : ℤ
  deriving Repr, DecidableEq

/-- `ADUP_Update`: a list of route entries. -/
structure UpdatePkt where
  routes : List RouteEntry
  deriving Repr, DecidableEq

/-- A link object: the names of its two endpoint routers. -/
structure LinkInfo where
  router1 : String
  router2 : String
  deriving Repr, DecidableEq

/-- One named interface slot: `{'link': link_or_None}`. -/
structure Interface where
  name : String
  link : Option LinkInfo
  deriving Repr, DecidableEq

/-- One entry of `route_changes` (`log_route_change`). -/
structure RouteChange where
  time : ℚ
  destination : String
  old_route : String
  new_route : String
  change_type : String
  deriving Repr, DecidableEq

/-- A path-selection candidate dict built in `advanced_path_selection`. -/
structure Candidate where
  neighbor : String
  total_cost : ℚ
  combined_score : ℚ
  stability : ℚ
  congestion : ℚ
  packet_loss : ℚ
  exploration_bonus : ℚ
  selection_reason : String
  deriving Repr, DecidableEq

/-- The mutable router state that the claims touch.  `now` is the simpy
clock `env.now` as seen by the router. -/
structure RouterState where
  name : String
  interfaces : List Interface
  networks : List String
  neighbor_table : List (String × NeighborInfo)
  fib : List (String × FibEntry)
  topology_table : List (String × List (String × ℚ))
  cost_history : List ((String × String) × List ℚ)
  loop_detection : List ((String × String) × List (ℚ × ℚ))
  path_usage : List ((String × String) × ℕ)
  route_changes : List RouteChange
  now : ℚ
  deriving Repr, DecidableEq

/-! ## Association-list primitives (Python dict semantics) -/

/-- Dict lookup: first binding of the key, scanning in insertion order. -/
def lookupA {κ α : Type} [DecidableEq κ] (k : κ) : List (κ × α) → Option α
  | [] => none
  | (k', v) :: rest => if k = k' then some v else lookupA k rest

/-- Dict assignment `d[k] = v`: replace in place if present, append if new. -/
def insertA {κ α : Type} [DecidableEq κ] (k : κ) (v : α) :
    List (κ × α) → List (κ × α)
  | [] => [(k, v)]
  | (k', v') :: rest =>
    if k = k' then (k, v) :: rest else (k', v') :: insertA k v rest

/-! ## Composite cost (`calculate_composite_cost`) -/

/-- `self.metric_weights` as set in `Router.__init__`. -/
structure MetricWeights where
  delay : ℚ
  jitter : ℚ
  packet_loss : ℚ
  congestion : ℚ
  deriving Repr, DecidableEq

/-- The default weights `{'delay': 0.4, 'jitter': 0.2, 'packet_loss': 0.25,
'congestion': 0.15}`. -/
def metric_weights : MetricWeights :=
  { delay := 0.4, jitter := 0.2, packet_loss := 0.25, congestion := 0.15 }

/-- `calculate_composite_cost`: weighted sum of the four metrics, the
packet-loss term scaled by 10. -/
def calculate_composite_cost (m : Metrics) : ℚ :=
  metric_weights.delay * m.delay +
  metric_weights.jitter * m.jitter +
  metric_weights.packet_loss * m.packet_loss * 10 +
  metric_weights.congestion * m.congestion

/-! ## Cost stabilization (`stabilize_cost`) -/

/-- The smoothing loop of `stabilize_cost`:
`smoothed = history[-1]; for i in range(len(history)-2, -1, -1):
  smoothed = alpha*history[i] + (1-alpha)*smoothed`. -/
def emaFold (alpha : ℚ) : List ℚ → ℚ
  | [] => 0
  | [x] => x
  | x :: y :: rest => alpha * x + (1 - alpha) * emaFold alpha (y :: rest)

/-- `history.append(new_cost); if len(history) > 5: history.pop(0)`. -/
def trimHist (oldHist : List ℚ) (new_cost : ℚ) : List ℚ :=
  if 5 < (oldHist ++ [new_cost]).length then (oldHist ++ [new_cost]).tail
  else oldHist ++ [new_cost]

/-- The smoothing branch of `stabilize_cost` on a recorded history: the
EMA, then the 20%-increase cap against `history[-2]` (the `len > 1`
guard is always met on the ≥3 branch but is kept from the source). -/
def smoothedOf (history : List ℚ) : ℚ :=
  if 1 < history.length then
    if history.getD (history.length - 2) 0 * 1.2 < emaFold 0.5 history then
      history.getD (history.length - 2) 0 * 1.2
    else emaFold 0.5 history
  else emaFold 0.5 history

/-- Core of `stabilize_cost` acting on the history list stored at
`cost_history[f"{dest}-{neighbor}"]`; returns the updated history and
the stabilized cost. -/
def stabilizeHist (oldHist : List ℚ) (new_cost : ℚ) : List ℚ × ℚ :=
  if 3 ≤ (trimHist oldHist new_cost).length then
    (trimHist oldHist new_cost, min (smoothedOf (trimHist oldHist new_cost)) 80)
  else
    (trimHist oldHist new_cost, min new_cost 60)

/-- `stabilize_cost(dest, neighbor, new_cost)`: threads the mutation of
`self.cost_history` and returns the stabilized cost. -/
def stabilize_cost (st : RouterState) (dest neighbor : String)
    (new_cost : ℚ) : RouterState × ℚ :=
  let key := (dest, neighbor)
  let r := stabilizeHist ((lookupA key st.cost_history).getD []) new_cost
  ({ st with cost_history := insertA key r.1 st.cost_history }, r.2)

/-! ## Loop/oscillation detection (`detect_cost_loop`) -/

/-- Python `max` over a nonempty cost list (0 on the empty list, which the
source never queries). -/
def maxList : List ℚ → ℚ
  | [] => 0
  | x :: xs => xs.foldl max x

/-- Python `min` over a nonempty cost list. -/
def minList : List ℚ → ℚ
  | [] => 0
  | x :: xs => xs.foldl min x

/-- `increases`: the number of strictly increasing consecutive pairs over
the whole history (`for i in range(1, len(history))`). -/
def countIncreases : List ℚ → ℕ
  | a :: b :: rest => (if a < b then 1 else 0) + countIncreases (b :: rest)
  | _ => 0

/-- `history[-5:]`: the last `n` elements of a list. -/
def lastN {α : Type} (n : ℕ) (l : List α) : List α := l.drop (l.length - n)

/-- `history.append((now, cost)); if len(history) > 10: history.pop(0)`. -/
def trimLoopHist (oldHist : List (ℚ × ℚ)) (now new_cost : ℚ) :
    List (ℚ × ℚ) :=
  if 10 < (oldHist ++ [(now, new_cost)]).length then
    (oldHist ++ [(now, new_cost)]).tail
  else oldHist ++ [(now, new_cost)]

/-- The oscillation test of `detect_cost_loop`: over the last 5 recorded
costs, `max − min > 30` (only once 5 samples exist). -/
def oscillationDetected (history : List (ℚ × ℚ)) : Prop :=
  5 ≤ history.length ∧
    30 < maxList (lastN 5 (history.map Prod.snd)) -
      minList (lastN 5 (history.map Prod.snd))

/-- The accumulation test of `detect_cost_loop`: at least 3 strict
increases over ALL recorded consecutive cost pairs (only once 4 samples
exist). -/
def accumulationDetected (history : List (ℚ × ℚ)) : Prop :=
  4 ≤ history.length ∧ 3 ≤ countIncreases (history.map Prod.snd)

instance (history : List (ℚ × ℚ)) : Decidable (oscillationDetected history) :=
  inferInstanceAs (Decidable (_ ∧ _))

instance (history : List (ℚ × ℚ)) : Decidable (accumulationDetected history) :=
  inferInstanceAs (Decidable (_ ∧ _))

/-- Core of `detect_cost_loop` on the `(timestamp, cost)` history stored at
`loop_detection[f"{dest}-{neighbor}"]`; returns the updated history and
whether the candidate is rejected. -/
def detectLoopHist (oldHist : List (ℚ × ℚ)) (now new_cost : ℚ) :
    List (ℚ × ℚ) × Bool :=
  if oscillationDetected (trimLoopHist oldHist now new_cost) then
    (trimLoopHist oldHist now new_cost, true)
  else if accumulationDetected (trimLoopHist oldHist now new_cost) then
    (trimLoopHist oldHist now new_cost, true)
  else
    (trimLoopHist oldHist now new_cost, false)

/-- `detect_cost_loop(dest, neighbor, new_cost)`: threads the mutation of
`self.loop_detection`. -/
def detect_cost_loop (st : RouterState) (dest neighbor : String)
    (new_cost : ℚ) : RouterState × Bool :=
  let key := (dest, neighbor)
  let r := detectLoopHist ((lookupA key st.loop_detection).getD []) st.now new_cost
  ({ st with loop_detection := insertA key r.1 st.loop_detection }, r.2)

/-! ## Path-selection helpers -/

/-- `calculate_link_stability(neighbor)`. -/
def calculate_link_stability (st : RouterState) (neighbor : String) : ℚ :=
  match lookupA neighbor st.neighbor_table with
  | none => 0
  | some info =>
    let time_since_contact := st.now - info.last_seen
    if time_since_contact < 20 then 100
    else if time_since_contact < 40 then 75
    else if time_since_contact < 80 then 50
    else 25

/-- `calculate_exploration_bonus(neighbor, dest)` over
`path_usage[f"{neighbor}->{dest}"]`. -/
def calculate_exploration_bonus (st : RouterState) (neighbor dest : String) : ℚ :=
  let usage_count := (lookupA (neighbor, dest) st.path_usage).getD 0
  if usage_count = 0 then 10
  else if usage_count < 3 then 5
  else if usage_count < 10 then 2
  else 0

/-- `determine_selection_reason`. -/
def determine_selection_reason (total_cost stability congestion packet_loss : ℚ) :
    String :=
  if total_cost < 50 ∧ 80 < stability then "Optimal path (low cost, high stability)"
  else if congestion < 20 then "Low congestion path"
  else if packet_loss < 2 then "Low packet loss path"
  else if 90 < stability then "High stability path"
  else "Best available path"

/-- `classify_route_change` (with `path_info['total_cost']` passed in;
`new_route` is never `'None'` at the call site in `recalculate_dual`). -/
def classify_route_change (old_route new_route : String) (total_cost : ℚ) :
    String :=
  if old_route = "None" then "New route discovered"
  else if new_route = "None" then "Route lost"
  else if old_route ≠ new_route then
    if total_cost < 50 then "Better path found"
    else "Path switched due to failure"
  else "Route updated"

/-! ## Advanced path selection (`advanced_path_selection`) -/

/-- The candidate-collection loop of `advanced_path_selection`:
iterate over `topology_table[dest].items()` in insertion order, skipping
unknown neighbors and loop-rejected candidates, threading the mutations
of `loop_detection` (via `detect_cost_loop`) and `cost_history` (via
`stabilize_cost`). -/
def buildCandidates (dest : String) :
    RouterState → List (String × ℚ) → RouterState × List Candidate
  | st, [] => (st, [])
  | st, (neighbor, reported_cost) :: rest =>
    match lookupA neighbor st.neighbor_table with
    | none => buildCandidates dest st rest
    | some ninfo =>
      let link_cost := calculate_composite_cost ninfo.metrics
      let total0 := link_cost + reported_cost
      let r1 := detect_cost_loop st dest neighbor total0
      if r1.2 then buildCandidates dest r1.1 rest
      else
        let total1 := min total0 80
        let total2 := if 50 < total1 then 50 + (total1 - 50) * 0.7 else total1
        let r2 := stabilize_cost r1.1 dest neighbor total2
        let st2 := r2.1
        let total3 := r2.2
        let stability_score := calculate_link_stability st2 neighbor
        let congestion_level := ninfo.metrics.congestion
        let packet_loss_rate := ninfo.metrics.packet_loss
        let bonus := calculate_exploration_bonus st2 neighbor dest
        let combined_score :=
          total3 * 0.6 + (100 - stability_score) * 0.15 +
          congestion_level * 0.1 + packet_loss_rate * 10 * 0.1 + bonus * 0.05
        let cand : Candidate :=
          { neighbor := neighbor
            total_cost := total3
            combined_score := combined_score
            stability := stability_score
            congestion := congestion_level
            packet_loss := packet_loss_rate
            exploration_bonus := bonus
            selection_reason :=
              determine_selection_reason total3 stability_score
                congestion_level packet_loss_rate }
        let r3 := buildCandidates dest st2 rest
        (r3.1, cand :: r3.2)

/-- `candidates.sort(key=combined_score)` is a stable sort followed by
taking `candidates[0]`; equivalently, the first candidate attaining the
minimal combined score. -/
def pickBest : List Candidate → Option Candidate
  | [] => none
  | c :: cs =>
    some (cs.foldl
      (fun best x => if x.combined_score < best.combined_score then x else best) c)

/-- `advanced_path_selection(dest)`: returns the threaded state and the
winning candidate (`None, None` when no candidate survives).  The
`path_analysis_log` append is pure logging read by no claim and is not
modelled. -/
def advanced_path_selection (st : RouterState) (dest : String) :
    RouterState × Option Candidate :=
  let entries := (lookupA dest st.topology_table).getD []
  let r := buildCandidates dest st entries
  (r.1, pickBest r.2)

/-! ## DUAL recomputation (`recalculate_dual`) -/

/-- The FIB-install test of `recalculate_dual`:
`abs(new_cost - current_cost) > 0.1`, where a missing current route (or a
route record without a cost, impossible here) reads as `float('inf')` and
so always passes. -/
def significantChange (current : Option FibEntry) (new_cost : ℚ) : Bool :=
  match current with
  | none => true
  | some e => decide ((1 : ℚ)/10 < |new_cost - e.metrics.total_cost|)

/-- The FIB entry `recalculate_dual` installs from the winning candidate. -/
def fibEntryOf (cand : Candidate) : FibEntry :=
  { next_hop := cand.neighbor
    metrics :=
      { total_cost := cand.total_cost
        stability := cand.stability
        congestion := cand.congestion
        packet_loss := cand.packet_loss
        selection_reason := cand.selection_reason } }

/-- The entry `log_route_change` appends on install. -/
def routeChangeOf (st2 : RouterState) (dest : String) (cand : Candidate)
    (current_next_hop : String) : RouteChange :=
  { time := st2.now
    destination := dest
    old_route := current_next_hop
    new_route := cand.neighbor
    change_type :=
      classify_route_change current_next_hop cand.neighbor cand.total_cost }

/-- `if len(self.route_changes) > 50: keep the last 50`. -/
def trimRouteChanges (rcs0 : List RouteChange) : List RouteChange :=
  if 50 < rcs0.length then rcs0.drop (rcs0.length - 50) else rcs0

/-- The install block of `recalculate_dual` (source lines setting
`self.fib[dest]` and calling `log_route_change`): write the FIB entry
from the winning candidate and append the classified route change
(trimmed to the last 50). -/
def installRoute (st2 : RouterState) (dest : String) (cand : Candidate)
    (current_next_hop : String) : RouterState :=
  { st2 with
    fib := (insertA dest (fibEntryOf cand) st2.fib)
    route_changes :=
      (trimRouteChanges
        (st2.route_changes ++ [routeChangeOf st2 dest cand current_next_hop])) }

/-- The unconditional `path_usage` bump of `recalculate_dual` (performed
before the install test). -/
def bumpUsage (st1 : RouterState) (dest : String) (cand : Candidate) :
    RouterState :=
  { st1 with
    path_usage :=
      (insertA (cand.neighbor, dest)
        ((lookupA (cand.neighbor, dest) st1.path_usage).getD 0 + 1)
        st1.path_usage) }

/-- The tail of `recalculate_dual` once a best candidate exists: bump
usage, then install when the next hop changes or the cost moves by more
than 0.1 (`current_next_hop` reads `'None'` when no route is
installed). -/
def installRouteDecision (st1 : RouterState) (dest : String)
    (cand : Candidate) : RouterState :=
  if ((lookupA dest st1.fib).map FibEntry.next_hop).getD "None" ≠ cand.neighbor ∨
      significantChange (lookupA dest st1.fib) cand.total_cost then
    installRoute (bumpUsage st1 dest cand) dest cand
      (((lookupA dest st1.fib).map FibEntry.next_hop).getD "None")
  else bumpUsage st1 dest cand

/-- `recalculate_dual(dest)`: run path selection, bump `path_usage`, and
install the winner in the FIB when the next hop changes or the cost moves
by more than 0.1, appending to `route_changes` (trimmed to 50).  The
`trigger_update(dest)` call only schedules a send (modelled separately by
`send_update`) and does not change router state. -/
def recalculate_dual (st : RouterState) (dest : String) : RouterState :=
  match (advanced_path_selection st dest).2 with
  | none => (advanced_path_selection st dest).1
  | some cand =>
    installRouteDecision (advanced_path_selection st dest).1 dest cand

/-! ## UPDATE ingress (`handle_update`) -/

/-- The rapid-increase cap of `handle_update`: once past the ceiling, the
stored cost is the reported one unless a previous topology value exists
and the report more than doubles it, in which case `min(old*1.5, 80)`. -/
def admittedCost (old? : Option ℚ) (reported_cost : ℚ) : ℚ :=
  match old? with
  | some old_cost =>
    if old_cost * 2 < reported_cost then min (old_cost * 1.5) 80
    else reported_cost
  | none => reported_cost

/-- The body of the `for route in update_pkt.routes` loop in
`handle_update`: split horizon, absolute ceiling, rapid-increase cap,
store into the topology table, then recompute DUAL for the prefix. -/
def processRoute (sender : String) (st : RouterState) (route : RouteEntry) :
    RouterState :=
  if (match lookupA route.dest_network st.fib with
      | some e => decide (e.next_hop = sender)
      | none => false) then st
  else if 100 < (route.total_delay : ℚ) then st
  else
    recalculate_dual
      { st with
        topology_table :=
          (insertA route.dest_network
            (insertA sender
              (admittedCost
                ((lookupA route.dest_network st.topology_table).bind (lookupA sender))
                (route.total_delay : ℚ))
              ((lookupA route.dest_network st.topology_table).getD []))
            st.topology_table) }
      route.dest_network

/-- `handle_update(sender, update_pkt)`: drop the whole packet when the
sender is not a known neighbor, otherwise process its routes in order. -/
def handle_update (st : RouterState) (sender : String)
    (routes : List RouteEntry) : RouterState :=
  if (lookupA sender st.neighbor_table).isNone then st
  else routes.foldl (processRoute sender) st

/-! ## Advertisement (`send_update` / `_send_update_on_all_interfaces`) -/

/-- Python `int()` truncation toward zero on a rational. -/
def pyInt (q : ℚ) : ℤ := if 0 ≤ q then ⌊q⌋ else ⌈q⌉

/-- The other endpoint of a link, as computed when emitting
(`link.router1.name == self.name` check in `send_hellos`). -/
def linkNeighbor (routerName : String) (l : LinkInfo) : String :=
  if l.router1 = routerName then l.router2 else l.router1

/-- `send_update(destination)` composed with
`_send_update_on_all_interfaces`: the list of `(interface name, packet)`
emissions.  No route → nothing; FIB cost above 70 → suppressed entirely;
otherwise one single-entry UPDATE on every interface that has a link. -/
def send_update (st : RouterState) (destination : String) :
    List (String × UpdatePkt) :=
  match lookupA destination st.fib with
  | none => []
  | some best_route_info =>
    let total_cost := best_route_info.metrics.total_cost
    if 70 < total_cost then []
    else
      let route_entry : RouteEntry :=
        { prefix_len := 24
          dest_network := destination
          total_delay := pyInt total_cost
          total_bandwidth := 100000
          total_jitter := 0
          total_packet_loss := 0
          total_congestion := 0 }
      let update_pkt : UpdatePkt := { routes := [route_entry] }
      st.interfaces.filterMap fun iface =>
        match iface.link with
        | some _ => some (iface.name, update_pkt)
        | none => none

/-! ## Periodic sweeps -/

/-- One sweep of the `apply_cost_decay` loop body: every learned
(non-`'self'`) FIB entry with cost above 10 is multiplied by 0.95, and for
each such prefix every topology-table value above 10 is multiplied by
0.95.  The re-advertisement it triggers only schedules sends. -/
def apply_cost_decay (st : RouterState) : RouterState :=
  let decay_factor : ℚ := 0.95
  let decayedDests :=
    st.fib.filterMap fun p =>
      if p.2.next_hop ≠ "self" ∧ 10 < p.2.metrics.total_cost
      then some p.1 else none
  let fib' := st.fib.map fun p =>
    if p.2.next_hop ≠ "self" ∧ 10 < p.2.metrics.total_cost then
      (p.1, { p.2 with metrics :=
        { p.2.metrics with total_cost := p.2.metrics.total_cost * decay_factor } })
    else p
  let topo' := st.topology_table.map fun q =>
    if decayedDests.contains q.1 then
      (q.1, q.2.map fun nv =>
        if 10 < nv.2 then (nv.1, nv.2 * decay_factor) else nv)
    else q
  { st with fib := fib', topology_table := topo' }

/-- `prune_neighbors`: delete every neighbor last seen more than 15 time
units ago.  Nothing else is touched. -/
def prune_neighbors (st : RouterState) : RouterState :=
  { st with
    neighbor_table :=
      st.neighbor_table.filter fun p =>
        decide (st.now - p.2.last_seen ≤ 15) }

/-- The FIB entry `trigger_update(None)` installs for a directly connected
network (`{'total_delay': 0, 'total_cost': 0}`; the auxiliary fields are
absent in the source dict and zeroed here). -/
def selfEntry : FibEntry :=
  { next_hop := "self"
    metrics :=
      { total_cost := 0, stability := 0, congestion := 0, packet_loss := 0
        selection_reason := "" } }

/-- The reset test of `monitor_and_reset_costs`: a learned entry whose
cost exceeds 60. -/
def isHighCost (p : String × FibEntry) : Bool :=
  decide (p.2.next_hop ≠ "self" ∧ 60 < p.2.metrics.total_cost)

/-- One sweep of the `monitor_and_reset_costs` loop body: every learned
FIB entry with cost above 60 is deleted from the FIB together with the
prefix's topology entry; if anything was reset, `cost_history` is cleared
and `trigger_update()` re-installs the SELF entries for the directly
connected networks (the sends it schedules are modelled by
`send_update`). -/
def monitor_and_reset_costs (st : RouterState) : RouterState :=
  if ((st.fib.filter isHighCost).map Prod.fst).isEmpty then st
  else
    { st with
      fib :=
        (st.networks.foldl (fun f net => insertA net selfEntry f)
          (st.fib.filter fun p => ! isHighCost p))
      topology_table :=
        (st.topology_table.filter fun q =>
          ! ((st.fib.filter isHighCost).map Prod.fst).contains q.1)
      cost_history := [] }

/-! ## Spec-side definitions -/

/-- Modelled from the claim's words (C4): an exponential moving average
with α weighting the NEWEST sample most, i.e. `s ← α·h[i] + (1-α)·s`
scanning the history from oldest to newest.  The source's
`stabilize_cost` loop (`emaFold`) scans in the opposite direction and so
weights the oldest sample most. -/
def ema_newest_spec (alpha : ℚ) : List ℚ → ℚ
  | [] => 0
  | x :: rest => rest.foldl (fun s h => alpha * h + (1 - alpha) * s) x

/-- The cost history recorded for `(dest, neighbor)` after
`stabilize_cost` has appended `c` (and trimmed to 5). -/
def newCostHistory (st : RouterState) (dest neighbor : String) (c : ℚ) :
    List ℚ :=
  (stabilizeHist ((lookupA (dest, neighbor) st.cost_history).getD []) c).1

/-- The `(timestamp, cost)` history recorded for `(dest, neighbor)` after
`detect_cost_loop` has appended `(now, c)` (and trimmed to 10). -/
def newLoopHistory (st : RouterState) (dest neighbor : String) (c : ℚ) :
    List (ℚ × ℚ) :=
  (detectLoopHist ((lookupA (dest, neighbor) st.loop_detection).getD []) st.now c).1

/-! ## Invariants (data-model bounds of spec §3 and §8) -/

/-- Lower bounds on link metrics from the spec's data model
(`delay ∈ [1,120]`, `jitter ∈ [0.1,20]`, `packet_loss ∈ [0.01,8]`,
`congestion ∈ [0,50]`); only the lower bounds matter for cost positivity. -/
abbrev metricsLB (m : Metrics) : Prop :=
  1 ≤ m.delay ∧ 1/10 ≤ m.jitter ∧ 1/100 ≤ m.packet_loss ∧ 0 ≤ m.congestion

/-- Every known neighbor's metrics respect the data-model lower bounds. -/
abbrev neighborsOK (st : RouterState) : Prop :=
  ∀ p ∈ st.neighbor_table, metricsLB p.2.metrics

/-- Every topology-table reported cost is nonnegative. -/
abbrev topoNonneg (st : RouterState) : Prop :=
  ∀ p ∈ st.topology_table, ∀ q ∈ p.2, (0 : ℚ) ≤ q.2

/-- Every recorded cost-history sample is positive. -/
abbrev histPos (st : RouterState) : Prop :=
  ∀ p ∈ st.cost_history, ∀ c ∈ p.2, (0 : ℚ) < c

/-- The claimed FIB cost bound: learned (non-SELF) entries have
`total_cost ∈ (0, 80]`. -/
abbrev fibCostInv (st : RouterState) : Prop :=
  ∀ p ∈ st.fib, p.2.next_hop ≠ "self" →
    0 < p.2.metrics.total_cost ∧ p.2.metrics.total_cost ≤ 80

/-- The combined router invariant threaded through every transition. -/
abbrev routerInv (st : RouterState) : Prop :=
  neighborsOK st ∧ topoNonneg st ∧ histPos st ∧ fibCostInv st

/-! ## Concrete router states used as test vectors -/

/-- All-quiet link metrics (used where the metric values are irrelevant). -/
def zeroMetrics : Metrics :=
  { delay := 0, jitter := 0, packet_loss := 0, congestion := 0
    link_stability := 100 }

/-- A router with empty tables, clock at 100. -/
def emptyState : RouterState :=
  { name := "R2", interfaces := [], networks := [], neighbor_table := []
    fib := [], topology_table := [], cost_history := [], loop_detection := []
    path_usage := [], route_changes := [], now := 100 }

/-- A synthetic single-prefix UPDATE route entry carrying cost `c`. -/
def mkRoute (dest : String) (c : ℤ) : RouteEntry :=
  { prefix_len := 24, dest_network := dest, total_delay := c
    total_bandwidth := 100000, total_jitter := 0, total_packet_loss := 0
    total_congestion := 0 }

/-- FIB metrics for a learned route with the given cost. -/
def learnedMetrics (c : ℚ) : FibMetrics :=
  { total_cost := c, stability := 100, congestion := 0, packet_loss := 0
    selection_reason := "" }

/-- Router "R2" whose FIB routes prefix "P" via next hop "N" and whose
only interface, `eth0`, is the link toward "N". -/
def c1State : RouterState :=
  { emptyState with
    name := "R2"
    neighbor_table := [("N", { last_seen := 100, metrics := zeroMetrics })]
    fib := [("P", { next_hop := "N", metrics := learnedMetrics 40 })]
    interfaces := [{ name := "eth0", link := some { router1 := "R2", router2 := "N" } }] }

/-- Router "R2" at the start of the S4 cost storm: neighbors "R1" and
"R3", prefix "X" currently routed via "R3" at cost 2. -/
def c3State : RouterState :=
  { emptyState with
    neighbor_table := [("R1", { last_seen := 100, metrics := zeroMetrics }),
                       ("R3", { last_seen := 100, metrics := zeroMetrics })]
    fib := [("X", { next_hop := "R3", metrics := learnedMetrics 2 })]
    topology_table := [("X", [("R3", 2)])] }

/-- The S4 storm: "R1" reports costs 10, then 25, then 90 for "X". -/
def c3Run : RouterState :=
  handle_update
    (handle_update (handle_update c3State "R1" [mkRoute "X" 10]) "R1"
      [mkRoute "X" 25])
    "R1" [mkRoute "X" 90]

/-- A router whose cost history for ("X","N") already holds [40, 40]. -/
def c4State : RouterState :=
  { emptyState with cost_history := [(("X", "N"), [40, 40])] }

/-- A router whose loop-detection history for ("X","N") already holds
five samples with costs 1, 2, 3, 4, 4. -/
def c5State : RouterState :=
  { emptyState with
    loop_detection := [(("X", "N"), [(1, 1), (2, 2), (3, 3), (4, 4), (5, 4)])] }

/-- A router with one neighbor "R1" (metrics within the data-model
bounds) advertising prefix "X" at cost 20. -/
def c6State : RouterState :=
  { emptyState with
    neighbor_table :=
      [("R1", { last_seen := 100
                metrics := { delay := 10, jitter := 2, packet_loss := 1
                             congestion := 5, link_stability := 95 } })]
    topology_table := [("X", [("R1", 20)])] }

/-- A router with a low-cost route for "P" and one live and one dead
interface. -/
def c7StateLow : RouterState :=
  { emptyState with
    fib := [("P", { next_hop := "N", metrics := learnedMetrics 40 })]
    interfaces := [{ name := "eth0", link := some { router1 := "R2", router2 := "N" } },
                   { name := "eth1", link := none }] }

/-- The same router with the route's cost above the suppression
threshold 70. -/
def c7StateHigh : RouterState :=
  { c7StateLow with
    fib := [("P", { next_hop := "N", metrics := learnedMetrics 75 })] }

/-- A router with a learned route for "P" at cost 40 and topology values
40 (for "N") and 5 (for "M"). -/
def c8State : RouterState :=
  { emptyState with
    fib := [("P", { next_hop := "N", metrics := learnedMetrics 40 })]
    topology_table := [("P", [("N", 40), ("M", 5)])] }

/-- A router that knows no path at all for prefix "X" but has an
installed route for "P". -/
def c9State : RouterState :=
  { emptyState with
    fib := [("P", { next_hop := "N", metrics := learnedMetrics 40 })] }

/-- A router at time 100 with one fresh neighbor "A" (seen at 90) and one
dead neighbor "B" (seen at 50), plus a route and a topology entry via
"B". -/
def c10State : RouterState :=
  { emptyState with
    neighbor_table := [("A", { last_seen := 90, metrics := zeroMetrics }),
                       ("B", { last_seen := 50, metrics := zeroMetrics })]
    fib := [("P", { next_hop := "B", metrics := learnedMetrics 30 })]
    topology_table := [("P", [("B", 25)])] }

/-! ## Association-list lemmas -/

theorem lookupA_insertA {κ α : Type} [DecidableEq κ] (k k' : κ) (v : α)
    (l : List (κ × α)) :
    lookupA k' (insertA k v l) = if k' = k then some v else lookupA k' l := by
  induction l with
  | nil => by_cases h : k' = k <;> simp [insertA, lookupA, h]
  | cons p rest ih =>
    obtain ⟨a, b⟩ := p
    by_cases hk : k = a
    · subst hk
      by_cases h : k' = k <;> simp [insertA, lookupA, h]
    · by_cases h' : k' = a
      · subst h'
        have hne : ¬ k' = k := fun he => hk he.symm
        simp [insertA, hk, lookupA, hne]
      · simp [insertA, hk, lookupA, h', ih]

theorem mem_insertA {κ α : Type} [DecidableEq κ] {k : κ} {v : α}
    {l : List (κ × α)} {p : κ × α} (h : p ∈ insertA k v l) :
    p = (k, v) ∨ p ∈ l := by
  induction l with
  | nil => simpa [insertA] using h
  | cons q rest ih =>
    by_cases hk : k = q.1
    · rw [show q = (q.1, q.2) from rfl] at h
      simp only [insertA, if_pos hk] at h
      rcases List.mem_cons.mp h with h1 | h1
      · exact Or.inl h1
      · exact Or.inr (List.mem_cons_of_mem _ h1)
    · rw [show q = (q.1, q.2) from rfl] at h
      simp only [insertA, if_neg hk] at h
      rcases List.mem_cons.mp h with h1 | h1
      · exact Or.inr (by simp [h1])
      · rcases ih h1 with h' | h'
        · exact Or.inl h'
        · exact Or.inr (List.mem_cons_of_mem _ h')

theorem lookupA_mem {κ α : Type} [DecidableEq κ] {k : κ} {v : α}
    {l : List (κ × α)} (h : lookupA k l = some v) : (k, v) ∈ l := by
  induction l with
  | nil => simp [lookupA] at h
  | cons q rest ih =>
    rw [show q = (q.1, q.2) from rfl] at h ⊢
    simp only [lookupA] at h
    by_cases hk : k = q.1
    · rw [if_pos hk] at h
      obtain rfl : q.2 = v := by injection h
      subst hk
      exact List.mem_cons_self _ _
    · rw [if_neg hk] at h
      exact List.mem_cons_of_mem _ (ih h)

theorem lookupA_map_value {κ α β : Type} [DecidableEq κ] (k : κ)
    (g : κ → α → β) (l : List (κ × α)) :
    lookupA k (l.map fun p => (p.1, g p.1 p.2)) = (lookupA k l).map (g k) := by
  induction l with
  | nil => simp [lookupA]
  | cons q rest ih =>
    simp only [List.map, lookupA]
    by_cases hk : k = q.1
    · subst hk
      simp
    · simp [hk, ih]

theorem lookupA_filter {κ α : Type} [DecidableEq κ] {k : κ} {v : α}
    {l : List (κ × α)} (f : κ × α → Bool)
    (h : lookupA k l = some v) (hf : f (k, v) = true) :
    lookupA k (l.filter f) = some v := by
  induction l with
  | nil => simp [lookupA] at h
  | cons q rest ih =>
    rw [show q = (q.1, q.2) from rfl] at h ⊢
    simp only [lookupA] at h
    by_cases hk : k = q.1
    · rw [if_pos hk] at h
      obtain rfl : q.2 = v := by injection h
      subst hk
      simp [List.filter_cons, hf, lookupA]
    · rw [if_neg hk] at h
      by_cases hq : f (q.1, q.2)
      · simp [List.filter_cons, hq, lookupA, hk, ih h]
      · simp [List.filter_cons, hq, ih h]

theorem lookupA_eq_none {κ α : Type} [DecidableEq κ] {k : κ}
    {l : List (κ × α)} (h : k ∉ l.map Prod.fst) : lookupA k l = none := by
  induction l with
  | nil => rfl
  | cons q rest ih =>
    simp only [List.map, List.mem_cons] at h
    push_neg at h
    simp [lookupA, h.1, ih h.2]

/-! ## Selection and smoothing lemmas -/

theorem pickBest_mem {cs : List Candidate} {c : Candidate}
    (h : pickBest cs = some c) : c ∈ cs := by
  match cs with
  | [] => simp [pickBest] at h
  | c0 :: rest =>
    simp only [pickBest, Option.some.injEq] at h
    subst h
    suffices h' : ∀ (l : List Candidate) (b : Candidate),
        l.foldl (fun best x =>
          if x.combined_score < best.combined_score then x else best) b = b ∨
        l.foldl (fun best x =>
          if x.combined_score < best.combined_score then x else best) b ∈ l by
      rcases h' rest c0 with h | h
      · rw [h]; exact List.mem_cons_self _ _
      · exact List.mem_cons_of_mem _ h
    intro l
    induction l with
    | nil => intro b; left; rfl
    | cons x xs ih =>
      intro b
      simp only [List.foldl]
      by_cases hx : x.combined_score < b.combined_score
      · rw [if_pos hx]
        rcases ih x with h | h
        · right; rw [h]; exact List.mem_cons_self _ _
        · right; exact List.mem_cons_of_mem _ h
      · rw [if_neg hx]
        rcases ih b with h | h
        · left; exact h
        · right; exact List.mem_cons_of_mem _ h

theorem emaFold_pos {l : List ℚ} (hne : l ≠ [])
    (hpos : ∀ x ∈ l, 0 < x) : 0 < emaFold 0.5 l := by
  induction l with
  | nil => exact absurd rfl hne
  | cons x rest ih =>
    match rest with
    | [] => simpa [emaFold] using hpos x (by simp)
    | y :: rest' =>
      have hx : 0 < x := hpos x (by simp)
      have htail : 0 < emaFold 0.5 (y :: rest') :=
        ih (by simp) (fun z hz => hpos z (List.mem_cons_of_mem _ hz))
      simp only [emaFold]
      have : (0.5 : ℚ) = 1/2 := by norm_num
      rw [this]
      nlinarith

theorem trimHist_subset (oldHist : List ℚ) (c : ℚ) :
    trimHist oldHist c ⊆ oldHist ++ [c] := by
  unfold trimHist
  split
  · exact List.tail_subset _
  · exact fun a ha => ha

theorem stabilizeHist_fst (oldHist : List ℚ) (c : ℚ) :
    (stabilizeHist oldHist c).1 = trimHist oldHist c := by
  unfold stabilizeHist
  split <;> rfl

theorem stabilizeHist_mem {oldHist : List ℚ} {c x : ℚ}
    (h : x ∈ (stabilizeHist oldHist c).1) : x ∈ oldHist ∨ x = c := by
  rw [stabilizeHist_fst] at h
  rcases List.mem_append.mp (trimHist_subset oldHist c h) with h' | h'
  · exact Or.inl h'
  · exact Or.inr (by simpa using h')

theorem getD_mem {l : List ℚ} {i : ℕ} (h : i < l.length) (d : ℚ) :
    l.getD i d ∈ l := by
  rw [List.getD_eq_getElem l d h]
  exact List.getElem_mem h

theorem smoothedOf_pos {history : List ℚ} (hne : history ≠ [])
    (hall : ∀ x ∈ history, 0 < x) : 0 < smoothedOf history := by
  have hema := emaFold_pos hne hall
  unfold smoothedOf
  split
  · next hlen =>
    have hprev : 0 < history.getD (history.length - 2) 0 := by
      apply hall
      apply getD_mem
      omega
    split
    · nlinarith
    · exact hema
  · exact hema

theorem stabilizeHist_bounds {oldHist : List ℚ} {c : ℚ}
    (hold : ∀ x ∈ oldHist, 0 < x) (hc : 0 < c) :
    0 < (stabilizeHist oldHist c).2 ∧ (stabilizeHist oldHist c).2 ≤ 80 := by
  have hall : ∀ x ∈ trimHist oldHist c, 0 < x := by
    intro x hx
    rcases List.mem_append.mp (trimHist_subset oldHist c hx) with h' | h'
    · exact hold x h'
    · simp only [List.mem_singleton] at h'
      exact h' ▸ hc
  unfold stabilizeHist
  split
  · next hlen =>
    have hne : trimHist oldHist c ≠ [] := by
      intro hcon
      rw [hcon] at hlen
      simp at hlen
    exact ⟨lt_min (smoothedOf_pos hne hall) (by norm_num), min_le_right _ _⟩
  · exact ⟨lt_min hc (by norm_num), le_trans (min_le_right _ _) (by norm_num)⟩

/-! ## Candidate-collection lemmas -/

theorem detect_cost_loop_state (st : RouterState) (dest neighbor : String)
    (c : ℚ) :
    (detect_cost_loop st dest neighbor c).1 =
      { st with loop_detection :=
          (insertA (dest, neighbor)
            (detectLoopHist ((lookupA (dest, neighbor) st.loop_detection).getD [])
              st.now c).1
            st.loop_detection) } := rfl

theorem stabilize_cost_state (st : RouterState) (dest neighbor : String)
    (c : ℚ) :
    (stabilize_cost st dest neighbor c).1 =
      { st with cost_history :=
          (insertA (dest, neighbor)
            (stabilizeHist ((lookupA (dest, neighbor) st.cost_history).getD []) c).1
            st.cost_history) } := rfl

theorem buildCandidates_state (dest : String) (es : List (String × ℚ))
    (st : RouterState) :
    (buildCandidates dest st es).1.name = st.name ∧
    (buildCandidates dest st es).1.interfaces = st.interfaces ∧
    (buildCandidates dest st es).1.networks = st.networks ∧
    (buildCandidates dest st es).1.neighbor_table = st.neighbor_table ∧
    (buildCandidates dest st es).1.fib = st.fib ∧
    (buildCandidates dest st es).1.topology_table = st.topology_table ∧
    (buildCandidates dest st es).1.path_usage = st.path_usage ∧
    (buildCandidates dest st es).1.route_changes = st.route_changes ∧
    (buildCandidates dest st es).1.now = st.now := by
  induction es generalizing st with
  | nil => exact ⟨rfl, rfl, rfl, rfl, rfl, rfl, rfl, rfl, rfl⟩
  | cons e rest ih =>
    obtain ⟨neighbor, rc⟩ := e
    simp only [buildCandidates]
    cases hn : lookupA neighbor st.neighbor_table with
    | none => exact ih st
    | some ninfo =>
      by_cases hl :
        (detect_cost_loop st dest neighbor
          (calculate_composite_cost ninfo.metrics + rc)).2 = true
      · simp only [hl, if_true]
        exact ih _
      · simp only [Bool.not_eq_true] at hl
        simp only [hl, Bool.false_eq_true, if_false]
        exact ih _

/-- The composite link cost is strictly positive under the data-model
lower bounds. -/
theorem composite_cost_pos {m : Metrics} (hm : metricsLB m) :
    0 < calculate_composite_cost m := by
  obtain ⟨h1, h2, h3, h4⟩ := hm
  unfold calculate_composite_cost metric_weights
  simp only
  nlinarith

/-- Each positive candidate cost survives stabilization inside `(0, 80]`. -/
theorem stabilize_cost_bounds {st : RouterState} {dest neighbor : String}
    {tot : ℚ} (hch : histPos st) (htot : 0 < tot) :
    0 < (stabilize_cost st dest neighbor tot).2 ∧
    (stabilize_cost st dest neighbor tot).2 ≤ 80 := by
  have hold : ∀ x ∈ (lookupA (dest, neighbor) st.cost_history).getD [],
      (0 : ℚ) < x := by
    intro x hx
    cases hck : lookupA (dest, neighbor) st.cost_history with
    | none => rw [hck] at hx; simp at hx
    | some l0 =>
      rw [hck] at hx
      exact hch _ (lookupA_mem hck) x hx
  exact stabilizeHist_bounds hold htot

/-- Stabilizing with a positive candidate keeps the cost history positive. -/
theorem stabilize_cost_histPos {st : RouterState} {dest neighbor : String}
    {tot : ℚ} (hch : histPos st) (htot : 0 < tot) :
    histPos (stabilize_cost st dest neighbor tot).1 := by
  intro p hp x hx
  simp only [stabilize_cost_state] at hp
  rcases mem_insertA hp with h' | h'
  · subst h'
    simp only at hx
    rcases stabilizeHist_mem hx with h'' | h''
    · cases hck : lookupA (dest, neighbor) st.cost_history with
      | none => rw [hck] at h''; simp at h''
      | some l0 =>
        rw [hck] at h''
        exact hch _ (lookupA_mem hck) x h''
    · exact h'' ▸ htot
  · exact hch p h' x hx

theorem buildCandidates_bounds (dest : String) (es : List (String × ℚ))
    (st : RouterState) (hnb : neighborsOK st) (hch : histPos st)
    (hes : ∀ e ∈ es, (0 : ℚ) ≤ e.2) :
    histPos (buildCandidates dest st es).1 ∧
    ∀ c ∈ (buildCandidates dest st es).2,
      0 < c.total_cost ∧ c.total_cost ≤ 80 := by
  induction es generalizing st with
  | nil => exact ⟨hch, by simp [buildCandidates]⟩
  | cons e rest ih =>
    obtain ⟨neighbor, rc⟩ := e
    have hrc : (0 : ℚ) ≤ rc := hes (neighbor, rc) (by simp)
    have hrest : ∀ e ∈ rest, (0 : ℚ) ≤ e.2 :=
      fun e he => hes e (List.mem_cons_of_mem _ he)
    simp only [buildCandidates]
    cases hn : lookupA neighbor st.neighbor_table with
    | none => exact ih st hnb hch hrest
    | some ninfo =>
      have hm : metricsLB ninfo.metrics := hnb (neighbor, ninfo) (lookupA_mem hn)
      have hlink : 0 < calculate_composite_cost ninfo.metrics :=
        composite_cost_pos hm
      have htot0 : 0 < calculate_composite_cost ninfo.metrics + rc := by
        linarith
      by_cases hl :
        (detect_cost_loop st dest neighbor
          (calculate_composite_cost ninfo.metrics + rc)).2 = true
      · simp only [hl, if_true]
        have hnbd : neighborsOK (detect_cost_loop st dest neighbor
            (calculate_composite_cost ninfo.metrics + rc)).1 := hnb
        have hchd : histPos (detect_cost_loop st dest neighbor
            (calculate_composite_cost ninfo.metrics + rc)).1 := hch
        exact ih _ hnbd hchd hrest
      · simp only [Bool.not_eq_true] at hl
        simp only [hl, Bool.false_eq_true, if_false]
        have htot2 : 0 <
            (if 50 < min (calculate_composite_cost ninfo.metrics + rc) 80 then
              50 + (min (calculate_composite_cost ninfo.metrics + rc) 80 - 50) * 0.7
            else min (calculate_composite_cost ninfo.metrics + rc) 80) := by
          split
          · next h => nlinarith
          · exact lt_min htot0 (by norm_num)
        have hchd : histPos (detect_cost_loop st dest neighbor
            (calculate_composite_cost ninfo.metrics + rc)).1 := hch
        have hbounds := @stabilize_cost_bounds _ dest neighbor _ hchd htot2
        have hch2 := @stabilize_cost_histPos _ dest neighbor _ hchd htot2
        have hnb2 : neighborsOK (stabilize_cost
            (detect_cost_loop st dest neighbor
              (calculate_composite_cost ninfo.metrics + rc)).1 dest neighbor
            (if 50 < min (calculate_composite_cost ninfo.metrics + rc) 80 then
              50 + (min (calculate_composite_cost ninfo.metrics + rc) 80 - 50) * 0.7
            else min (calculate_composite_cost ninfo.metrics + rc) 80)).1 := hnb
        have hres := ih _ hnb2 hch2 hrest
        refine ⟨hres.1, ?_⟩
        intro c hc
        rcases List.mem_cons.mp hc with h' | h'
        · subst h'
          exact hbounds
        · exact hres.2 c h'

/-! ## Frame lemmas for DUAL recomputation -/

theorem detectLoopHist_fst (oldHist : List (ℚ × ℚ)) (now c : ℚ) :
    (detectLoopHist oldHist now c).1 = trimLoopHist oldHist now c := by
  unfold detectLoopHist
  split
  · rfl
  · split <;> rfl

theorem installRouteDecision_frame (st1 : RouterState) (dest : String)
    (cand : Candidate) :
    (installRouteDecision st1 dest cand).topology_table = st1.topology_table ∧
    (installRouteDecision st1 dest cand).neighbor_table = st1.neighbor_table ∧
    ((installRouteDecision st1 dest cand).fib = st1.fib ∨
      (installRouteDecision st1 dest cand).fib =
        insertA dest (fibEntryOf cand) st1.fib) := by
  unfold installRouteDecision
  split
  · exact ⟨rfl, rfl, Or.inr rfl⟩
  · exact ⟨rfl, rfl, Or.inl rfl⟩

theorem recalculate_dual_topology (st : RouterState) (dest : String) :
    (recalculate_dual st dest).topology_table = st.topology_table := by
  obtain ⟨-, -, -, -, -, htop, -, -, -⟩ :=
    buildCandidates_state dest ((lookupA dest st.topology_table).getD []) st
  unfold recalculate_dual
  cases hp : (advanced_path_selection st dest).2 with
  | none => exact htop
  | some cand =>
    exact ((installRouteDecision_frame _ dest cand).1).trans htop

theorem recalculate_dual_neighbors (st : RouterState) (dest : String) :
    (recalculate_dual st dest).neighbor_table = st.neighbor_table := by
  obtain ⟨-, -, -, hnt, -, -, -, -, -⟩ :=
    buildCandidates_state dest ((lookupA dest st.topology_table).getD []) st
  unfold recalculate_dual
  cases hp : (advanced_path_selection st dest).2 with
  | none => exact hnt
  | some cand =>
    exact ((installRouteDecision_frame _ dest cand).2.1).trans hnt

theorem recalculate_dual_none_frame (st : RouterState) (dest : String)
    (h : (advanced_path_selection st dest).2 = none) :
    (recalculate_dual st dest).fib = st.fib ∧
    (recalculate_dual st dest).topology_table = st.topology_table ∧
    (recalculate_dual st dest).route_changes = st.route_changes := by
  obtain ⟨-, -, -, -, hfib, htop, -, hrc, -⟩ :=
    buildCandidates_state dest ((lookupA dest st.topology_table).getD []) st
  unfold recalculate_dual
  rw [h]
  exact ⟨hfib, htop, hrc⟩

theorem recalculate_dual_fib_cases (st : RouterState) (dest : String) :
    (recalculate_dual st dest).fib = st.fib ∨
    ∃ cand, (recalculate_dual st dest).fib =
      insertA dest (fibEntryOf cand) st.fib := by
  obtain ⟨-, -, -, -, hfib, -, -, -, -⟩ :=
    buildCandidates_state dest ((lookupA dest st.topology_table).getD []) st
  unfold recalculate_dual
  cases hp : (advanced_path_selection st dest).2 with
  | none => exact Or.inl hfib
  | some cand =>
    rcases (installRouteDecision_frame
        (advanced_path_selection st dest).1 dest cand).2.2 with h | h
    · exact Or.inl (h.trans hfib)
    · exact Or.inr ⟨cand, h.trans (congrArg (insertA dest (fibEntryOf cand)) hfib)⟩

theorem contains_filterMap_of_lookupA {l : List (String × FibEntry)}
    {d : String} {e : FibEntry} (h : lookupA d l = some e)
    (hc : e.next_hop ≠ "self" ∧ 10 < e.metrics.total_cost) :
    (l.filterMap fun p =>
      if p.2.next_hop ≠ "self" ∧ 10 < p.2.metrics.total_cost
      then some p.1 else none).contains d = true := by
  induction l with
  | nil => simp [lookupA] at h
  | cons q rest ih =>
    rw [show q = (q.1, q.2) from rfl] at h ⊢
    simp only [lookupA] at h
    by_cases hk : d = q.1
    · rw [if_pos hk] at h
      obtain rfl : q.2 = e := by injection h
      subst hk
      simp [List.filterMap_cons, if_pos hc, List.contains_cons]
    · rw [if_neg hk] at h
      simp only [List.filterMap_cons]
      split
      · exact ih h
      · simp only [List.contains_cons]
        rw [ih h]
        simp

theorem lookupA_filter_char {κ α : Type} [DecidableEq κ] (f : α → Bool)
    (l : List (κ × α)) (hnd : (l.map Prod.fst).Nodup) (k : κ) :
    lookupA k (l.filter fun p => f p.2) =
      (match lookupA k l with
        | some v => if f v then some v else none
        | none => none) := by
  induction l with
  | nil => rfl
  | cons q rest ih =>
    obtain ⟨a, b⟩ := q
    simp only [List.map, List.nodup_cons] at hnd
    by_cases hk : k = a
    · subst hk
      by_cases hfb : f b
      · simp [List.filter_cons, hfb, lookupA]
      · have hnone : lookupA k (rest.filter fun p => f p.2) = none := by
          apply lookupA_eq_none
          intro hmem
          rcases List.mem_map.mp hmem with ⟨p, hp, hpk⟩
          exact hnd.1 (hpk ▸ List.mem_map_of_mem Prod.fst
            (List.mem_of_mem_filter hp))
        simp [List.filter_cons, hfb, lookupA, hnone]
    · by_cases hfb : f b
      · simp [List.filter_cons, hfb, lookupA, hk, ih hnd.2]
      · simp [List.filter_cons, hfb, lookupA, hk, ih hnd.2]

theorem lookupA_foldl_insertA_isSome {κ α : Type} [DecidableEq κ]
    (nets : List κ) (v : α) (f : List (κ × α)) (k : κ)
    (h : (lookupA k f).isSome = true) :
    (lookupA k (nets.foldl (fun acc net => insertA net v acc) f)).isSome = true := by
  induction nets generalizing f with
  | nil => exact h
  | cons n rest ih =>
    simp only [List.foldl]
    apply ih
    rw [lookupA_insertA]
    split
    · rfl
    · exact h

/-! ## Invariant preservation -/

/-- The install decision preserves the router invariant as long as the
winning candidate's cost is within `(0, 80]`. -/
theorem installRouteDecision_inv (st1 : RouterState) (dest : String)
    (cand : Candidate) (hcand : 0 < cand.total_cost ∧ cand.total_cost ≤ 80)
    (hinv : routerInv st1) : routerInv (installRouteDecision st1 dest cand) := by
  obtain ⟨hnb, htp, hch, hf⟩ := hinv
  unfold installRouteDecision
  split
  · unfold installRoute
    refine ⟨hnb, htp, hch, ?_⟩
    intro p hp'
    rcases mem_insertA hp' with h' | h'
    · subst h'
      intro _
      exact hcand
    · exact hf p h'
  · exact ⟨hnb, htp, hch, hf⟩

theorem recalculate_dual_inv (st : RouterState) (dest : String)
    (hinv : routerInv st) : routerInv (recalculate_dual st dest) := by
  obtain ⟨hnb, htp, hch, hf⟩ := hinv
  have hes : ∀ e ∈ (lookupA dest st.topology_table).getD [], (0 : ℚ) ≤ e.2 := by
    intro e he
    cases hk : lookupA dest st.topology_table with
    | none => rw [hk] at he; simp at he
    | some inner =>
      rw [hk] at he
      exact htp _ (lookupA_mem hk) e he
  have hbs := buildCandidates_state dest ((lookupA dest st.topology_table).getD []) st
  have hbb := buildCandidates_bounds dest ((lookupA dest st.topology_table).getD [])
    st hnb hch hes
  obtain ⟨-, -, -, hnt, hfib, htop, -, -, -⟩ := hbs
  have hinv1 : routerInv (advanced_path_selection st dest).1 := by
    refine ⟨?_, ?_, hbb.1, ?_⟩
    · intro p hp'
      exact hnb p (by rw [← hnt]; exact hp')
    · intro p hp'
      exact htp p (by rw [← htop]; exact hp')
    · intro p hp'
      exact hf p (by rw [← hfib]; exact hp')
  unfold recalculate_dual
  cases hp : (advanced_path_selection st dest).2 with
  | none => exact hinv1
  | some cand =>
    have hcand := hbb.2 cand (pickBest_mem hp)
    exact installRouteDecision_inv _ dest cand hcand hinv1

theorem apply_cost_decay_inv (st : RouterState) (hinv : routerInv st) :
    routerInv (apply_cost_decay st) := by
  obtain ⟨hnb, htp, hch, hf⟩ := hinv
  refine ⟨hnb, ?_, hch, ?_⟩
  · intro p hp q hq
    simp only [apply_cost_decay] at hp
    rcases List.mem_map.mp hp with ⟨p0, hp0, hfp⟩
    by_cases hdec : (st.fib.filterMap fun p =>
        if p.2.next_hop ≠ "self" ∧ 10 < p.2.metrics.total_cost
        then some p.1 else none).contains p0.1
    · rw [if_pos hdec] at hfp
      subst hfp
      simp only at hq
      rcases List.mem_map.mp hq with ⟨q0, hq0, hfq⟩
      have hq0n : (0 : ℚ) ≤ q0.2 := htp p0 hp0 q0 hq0
      by_cases h10 : (10 : ℚ) < q0.2
      · rw [if_pos h10] at hfq
        subst hfq
        simp only
        nlinarith
      · rw [if_neg h10] at hfq
        subst hfq
        exact hq0n
    · rw [if_neg hdec] at hfp
      subst hfp
      exact htp p0 hp0 q hq
  · intro p hp
    simp only [apply_cost_decay] at hp
    rcases List.mem_map.mp hp with ⟨p0, hp0, hfp⟩
    by_cases hc : p0.2.next_hop ≠ "self" ∧ 10 < p0.2.metrics.total_cost
    · rw [if_pos hc] at hfp
      subst hfp
      intro _
      have hb := hf p0 hp0 hc.1
      constructor
      · nlinarith
      · nlinarith
    · rw [if_neg hc] at hfp
      subst hfp
      exact hf p0 hp0

theorem processRoute_inv (st : RouterState) (sender : String)
    (route : RouteEntry) (hinv : routerInv st) (hr : 0 ≤ route.total_delay) :
    routerInv (processRoute sender st route) := by
  obtain ⟨hnb, htp, hch, hf⟩ := hinv
  simp only [processRoute]
  split
  · exact ⟨hnb, htp, hch, hf⟩
  · split
    · exact ⟨hnb, htp, hch, hf⟩
    · next hceil =>
      have hinner : ∀ e ∈ (lookupA route.dest_network st.topology_table).getD [],
          (0 : ℚ) ≤ e.2 := by
        intro e he
        cases hk : lookupA route.dest_network st.topology_table with
        | none => rw [hk] at he; simp at he
        | some inner =>
          rw [hk] at he
          exact htp _ (lookupA_mem hk) e he
      have hrq : (0 : ℚ) ≤ (route.total_delay : ℚ) := by
        exact_mod_cast hr
      have hrep : (0 : ℚ) ≤
          admittedCost
            ((lookupA route.dest_network st.topology_table).bind (lookupA sender))
            (route.total_delay : ℚ) := by
        unfold admittedCost
        cases hk : lookupA route.dest_network st.topology_table with
        | none => simp only [hk, Option.bind]; exact hrq
        | some inner =>
          simp only [hk, Option.some_bind]
          cases hk2 : lookupA sender inner with
          | none => exact hrq
          | some old_cost =>
            have hold : (0 : ℚ) ≤ old_cost :=
              htp _ (lookupA_mem hk) _ (lookupA_mem hk2)
            simp only
            split
            · exact le_min (by linarith) (by norm_num)
            · exact hrq
      apply recalculate_dual_inv
      refine ⟨hnb, ?_, hch, hf⟩
      intro p hp q hq
      rcases mem_insertA hp with h' | h'
      · subst h'
        simp only at hq
        rcases mem_insertA hq with h'' | h''
        · subst h''
          exact hrep
        · exact hinner q h''
      · exact htp p h' q hq

theorem handle_update_inv (st : RouterState) (sender : String)
    (routes : List RouteEntry) (hinv : routerInv st)
    (hr : ∀ r ∈ routes, 0 ≤ r.total_delay) :
    routerInv (handle_update st sender routes) := by
  unfold handle_update
  split
  · exact hinv
  · clear * - hinv hr
    induction routes generalizing st with
    | nil => exact hinv
    | cons r rest ih =>
      simp only [List.foldl]
      exact ih _
        (processRoute_inv st sender r hinv (hr r (by simp)))
        (fun r' hr' => hr r' (List.mem_cons_of_mem _ hr'))

/-! ## Decay-sweep lookup lemmas -/

theorem decay_fib_lookup (l : List (String × FibEntry)) (d : String) :
    lookupA d (l.map fun p =>
      if p.2.next_hop ≠ "self" ∧ 10 < p.2.metrics.total_cost then
        (p.1, { p.2 with metrics :=
          { p.2.metrics with total_cost := p.2.metrics.total_cost * 0.95 } })
      else p) =
    (lookupA d l).map (fun v =>
      if v.next_hop ≠ "self" ∧ 10 < v.metrics.total_cost then
        { v with metrics :=
          { v.metrics with total_cost := v.metrics.total_cost * 0.95 } }
      else v) := by
  induction l with
  | nil => rfl
  | cons q rest ih =>
    obtain ⟨a, b⟩ := q
    simp only [List.map_cons]
    by_cases hk : d = a
    · subst hk
      by_cases hc : b.next_hop ≠ "self" ∧ 10 < b.metrics.total_cost
      · rw [if_pos hc]
        simp only [lookupA]
        simp only [if_true, Option.map_some']
        rw [if_pos hc]
      · rw [if_neg hc]
        simp only [lookupA]
        simp only [if_true, Option.map_some']
        rw [if_neg hc]
    · by_cases hc : b.next_hop ≠ "self" ∧ 10 < b.metrics.total_cost
      · rw [if_pos hc]
        simp only [lookupA]
        rw [if_neg hk, if_neg hk]
        exact ih
      · rw [if_neg hc]
        simp only [lookupA]
        rw [if_neg hk, if_neg hk]
        exact ih

theorem decay_topo_lookup (tl : List (String × List (String × ℚ)))
    (dd : List String) (d : String) :
    lookupA d (tl.map fun q =>
      if dd.contains q.1 then
        (q.1, q.2.map fun nv => if 10 < nv.2 then (nv.1, nv.2 * 0.95) else nv)
      else q) =
    (lookupA d tl).map (fun inner =>
      if dd.contains d then
        inner.map fun nv => if 10 < nv.2 then (nv.1, nv.2 * 0.95) else nv
      else inner) := by
  induction tl with
  | nil => rfl
  | cons q rest ih =>
    obtain ⟨a, binner⟩ := q
    simp only [List.map_cons]
    by_cases hk : d = a
    · subst hk
      by_cases hc : dd.contains d = true
      · rw [if_pos hc]
        simp only [lookupA]
        simp only [if_true, Option.map_some']
        rw [if_pos hc]
      · rw [if_neg hc]
        simp only [lookupA]
        simp only [if_true, Option.map_some']
        rw [if_neg hc]
    · by_cases hc : dd.contains a = true
      · rw [if_pos hc]
        simp only [lookupA]
        rw [if_neg hk, if_neg hk]
        exact ih
      · rw [if_neg hc]
        simp only [lookupA]
        rw [if_neg hk, if_neg hk]
        exact ih

/-! ## Claim C1: split horizon -/

/-- C1 (counterexample): the claim says a router R with `FIB[P].next_hop = N`
never emits an UPDATE for P on the interface toward N.  In `c1State`,
"R2" routes "P" via "N", the only interface `eth0` is the link toward
"N", yet `send_update` emits the UPDATE for "P" on it: the source
broadcasts on all interfaces and leaves split horizon to the receiver. -/
theorem c1_counterexample :
    (lookupA "P" c1State.fib).map FibEntry.next_hop = some "N" ∧
    (c1State.interfaces.map fun i =>
      (i.name, i.link.map (linkNeighbor c1State.name))) = [("eth0", some "N")] ∧
    (send_update c1State "P").map (fun pr =>
      (pr.1, pr.2.routes.map RouteEntry.dest_network)) = [("eth0", ["P"])] :=
  ⟨rfl, rfl, rfl⟩

/-- C1 (amended): split horizon is enforced on the receiving side:
a router whose own FIB routes the advertised prefix through the sender
drops the route entry, leaving its entire state (in particular
`TopologyTable[P]`) unchanged.  The emitting side broadcasts on every
live interface, including the one toward the FIB next hop
(`c1_counterexample`). -/
theorem c1_split_horizon_receiver_side (st : RouterState) (sender : String)
    (route : RouteEntry)
    (h : (lookupA route.dest_network st.fib).map FibEntry.next_hop = some sender) :
    handle_update st sender [route] = st := by
  unfold handle_update
  split
  · rfl
  · simp only [List.foldl]
    unfold processRoute
    cases hfib : lookupA route.dest_network st.fib with
    | none => rw [hfib] at h; simp at h
    | some e =>
      rw [hfib] at h
      simp only [Option.map_some'] at h
      have he : e.next_hop = sender := by injection h
      simp [he]

/-- C1 (witness): the receiver-side drop at a concrete state: "R2"
routes "P" via "N", so an UPDATE for "P" arriving from "N" leaves the
state untouched. -/
theorem c1_witness :
    (lookupA "P" c1State.fib).map FibEntry.next_hop = some "N" ∧
    handle_update c1State "N" [mkRoute "P" 25] = c1State :=
  ⟨by decide, c1_split_horizon_receiver_side c1State "N" (mkRoute "P" 25) (by decide)⟩

/-! ## Claim C2: composite link cost -/

/-- C2: the composite link cost of a neighbor-metrics record equals
`0.40·delay + 0.20·jitter + 0.25·(packet_loss·10) + 0.15·congestion`. -/
theorem c2_composite_cost (m : Metrics) :
    calculate_composite_cost m =
      0.40 * m.delay + 0.20 * m.jitter + 0.25 * (m.packet_loss * 10) +
        0.15 * m.congestion := by
  simp only [calculate_composite_cost, metric_weights]
  ring

/-! ## Claim C3: UPDATE admission and the 10/25/90 storm -/

/-- C3 (counterexample): after "R1" reports 10, then 25, then 90 for
prefix "X" (all three passing split horizon — the FIB stays on "R3"),
`TopologyTable["X"]["R1"]` is 22.5, not the claimed 37.5: the
rapid-increase cap already fires at 25 > 2·10 (storing 15) and again at
90 > 2·15 (storing 22.5). -/
theorem c3_counterexample :
    (lookupA "X" c3Run.topology_table).bind (lookupA "R1") = some (45/2) ∧
    (lookupA "X" c3Run.fib).map FibEntry.next_hop = some "R3" ∧
    (45/2 : ℚ) ≠ (75/2 : ℚ) :=
  ⟨by with_unfolding_all rfl, by with_unfolding_all rfl, by norm_num⟩

/-- C3 (amended): for every UPDATE route entry from a known neighbor S
that passes the split-horizon check: a reported cost above 100 changes
nothing; otherwise the stored value is `admittedCost`: `min(old·1.5, 80)`
when a previous value `old` exists and the report exceeds `2·old`, and
the reported cost itself otherwise.  (After reports 10, 25, 90 the stored
value is therefore 22.5, not 37.5.) -/
theorem c3_update_admission (st : RouterState) (sender : String)
    (route : RouteEntry)
    (hknown : (lookupA sender st.neighbor_table).isSome = true)
    (hsh : (lookupA route.dest_network st.fib).map FibEntry.next_hop ≠ some sender) :
    (100 < (route.total_delay : ℚ) → handle_update st sender [route] = st) ∧
    ((route.total_delay : ℚ) ≤ 100 →
      (lookupA route.dest_network
        (handle_update st sender [route]).topology_table).bind (lookupA sender) =
        some (admittedCost
          ((lookupA route.dest_network st.topology_table).bind (lookupA sender))
          (route.total_delay : ℚ))) := by
  have hbool : (match lookupA route.dest_network st.fib with
      | some e => decide (e.next_hop = sender)
      | none => false) = false := by
    cases hfib : lookupA route.dest_network st.fib with
    | none => rfl
    | some e =>
      rw [hfib] at hsh
      simp only [Option.map_some'] at hsh
      simp only [decide_eq_false_iff_not]
      intro he
      exact hsh (congrArg some he)
  have hnn : (lookupA sender st.neighbor_table).isNone = false := by
    cases hs : lookupA sender st.neighbor_table with
    | none => rw [hs] at hknown; simp at hknown
    | some i => rfl
  unfold handle_update
  rw [hnn]
  simp only [Bool.false_eq_true, if_false, List.foldl]
  unfold processRoute
  rw [hbool]
  simp only [Bool.false_eq_true, if_false]
  constructor
  · intro h100
    rw [if_pos h100]
  · intro h100
    rw [if_neg (not_lt.mpr h100)]
    rw [recalculate_dual_topology]
    simp [lookupA_insertA]

/-- C3 (witness): at `c3State`, the first report of cost 10 for "X"
from "R1" passes all checks and is stored as such. -/
theorem c3_witness :
    ((lookupA "R1" c3State.neighbor_table).isSome = true ∧
      (lookupA "X" c3State.fib).map FibEntry.next_hop ≠ some "R1" ∧
      (((10 : ℤ) : ℚ) ≤ 100)) ∧
    (lookupA "X" (handle_update c3State "R1" [mkRoute "X" 10]).topology_table).bind
      (lookupA "R1") =
      some (admittedCost
        ((lookupA "X" c3State.topology_table).bind (lookupA "R1"))
        ((10 : ℤ) : ℚ)) :=
  ⟨⟨by decide, by decide, by norm_num⟩,
    (c3_update_admission c3State "R1" (mkRoute "X" 10) (by decide)
      (by decide)).2 (by norm_num [mkRoute])⟩

/-! ## Claim C4: cost stabilization -/

/-- C4 (counterexample): with recorded history [40, 40] and candidate 8,
`stabilize_cost` returns 32 — the EMA weighting the OLDEST sample most
(0.5·40 + 0.25·40 + 0.25·8) — whereas the claimed newest-weighted EMA
(0.25·40 + 0.25·40 + 0.5·8 = 24, under the same caps) gives 24. -/
theorem c4_counterexample :
    (stabilize_cost c4State "X" "N" 8).2 = 32 ∧
    newCostHistory c4State "X" "N" 8 = [40, 40, 8] ∧
    min (min (ema_newest_spec 0.5 [40, 40, 8]) (40 * 1.2)) 80 = 24 ∧
    (32 : ℚ) ≠ 24 :=
  ⟨by with_unfolding_all rfl, by with_unfolding_all rfl,
    by with_unfolding_all rfl, by norm_num⟩

/-- C4 (amended): with at least 3 recorded samples, stabilization returns
the α = 0.5 exponential moving average over the recorded history with the
OLDEST sample weighted most (weights halving toward the newest, the two
newest sharing the smallest weight), capped at 1.20 times the
previously-recorded candidate cost (`history[-2]`) and at the absolute
ceiling 80; with fewer than 3 samples it returns `min(c, 60)`. -/
theorem c4_stabilize_characterization (st : RouterState)
    (dest neighbor : String) (c : ℚ) :
    (3 ≤ (newCostHistory st dest neighbor c).length →
      (stabilize_cost st dest neighbor c).2 =
        min (min (emaFold 0.5 (newCostHistory st dest neighbor c))
          ((newCostHistory st dest neighbor c).getD
            ((newCostHistory st dest neighbor c).length - 2) 0 * 1.2)) 80) ∧
    ((newCostHistory st dest neighbor c).length < 3 →
      (stabilize_cost st dest neighbor c).2 = min c 60) ∧
    lookupA (dest, neighbor) (stabilize_cost st dest neighbor c).1.cost_history =
      some (newCostHistory st dest neighbor c) := by
  have hfst : newCostHistory st dest neighbor c =
      trimHist ((lookupA (dest, neighbor) st.cost_history).getD []) c :=
    stabilizeHist_fst _ _
  have h2 : (stabilize_cost st dest neighbor c).2 =
      (stabilizeHist ((lookupA (dest, neighbor) st.cost_history).getD []) c).2 :=
    rfl
  refine ⟨?_, ?_, ?_⟩
  · intro h3
    rw [hfst] at h3
    rw [h2, hfst]
    unfold stabilizeHist
    rw [if_pos h3]
    unfold smoothedOf
    rw [if_pos (by omega : 1 <
      (trimHist ((lookupA (dest, neighbor) st.cost_history).getD []) c).length)]
    split
    · next hlt => rw [min_eq_right (le_of_lt hlt)]
    · next hge => rw [min_eq_left (not_lt.mp hge)]
  · intro hlt
    rw [hfst] at hlt
    rw [h2]
    unfold stabilizeHist
    rw [if_neg (by omega)]
  · have h1 : (stabilize_cost st dest neighbor c).1.cost_history =
        insertA (dest, neighbor) (newCostHistory st dest neighbor c)
          st.cost_history := rfl
    rw [h1, lookupA_insertA, if_pos rfl]

/-- C4 (witness): at `c4State` (history [40, 40], candidate 8) the ≥3
branch applies and the characterization evaluates to 32. -/
theorem c4_witness :
    3 ≤ (newCostHistory c4State "X" "N" 8).length ∧
    (stabilize_cost c4State "X" "N" 8).2 =
      min (min (emaFold 0.5 (newCostHistory c4State "X" "N" 8))
        ((newCostHistory c4State "X" "N" 8).getD
          ((newCostHistory c4State "X" "N" 8).length - 2) 0 * 1.2)) 80 :=
  ⟨by decide,
    (c4_stabilize_characterization c4State "X" "N" 8).1 (by decide)⟩

/-! ## Claim C5: loop/oscillation detection -/

/-- C5 (counterexample): after recording, the history costs are
[1, 2, 3, 4, 4, 4]: the last 5 satisfy `max − min = 2 ≤ 30` and among the
last 4 only one pair strictly increases, so the claim says the candidate
proceeds — yet `detect_cost_loop` rejects it, because the accumulation
test counts the 3 strict increases over the WHOLE recorded history. -/
theorem c5_counterexample :
    (detect_cost_loop c5State "X" "N" 4).2 = true ∧
    (newLoopHistory c5State "X" "N" 4).map Prod.snd = [1, 2, 3, 4, 4, 4] ∧
    maxList (lastN 5 [1, 2, 3, 4, 4, 4]) -
      minList (lastN 5 [1, 2, 3, 4, 4, 4]) ≤ 30 ∧
    countIncreases (lastN 4 [1, 2, 3, 4, 4, 4]) < 3 :=
  ⟨by with_unfolding_all rfl, by with_unfolding_all rfl,
    by with_unfolding_all decide, by with_unfolding_all decide⟩

/-- C5 (amended): after `(now, c)` is recorded in the loop-detection
history (capped at 10 entries), the candidate is rejected exactly when
either the last 5 recorded costs satisfy `max − min > 30`, or at least 3
strict increases occur across ALL recorded consecutive cost pairs (up to
10 samples), not merely among the last 4. -/
theorem c5_loop_detection_characterization (st : RouterState)
    (dest neighbor : String) (c : ℚ) :
    ((detect_cost_loop st dest neighbor c).2 = true ↔
      oscillationDetected (newLoopHistory st dest neighbor c) ∨
        accumulationDetected (newLoopHistory st dest neighbor c)) ∧
    lookupA (dest, neighbor)
        (detect_cost_loop st dest neighbor c).1.loop_detection =
      some (newLoopHistory st dest neighbor c) ∧
    (((lookupA (dest, neighbor) st.loop_detection).getD []).length ≤ 10 →
      (newLoopHistory st dest neighbor c).length ≤ 10) := by
  have hfst := detectLoopHist_fst
    ((lookupA (dest, neighbor) st.loop_detection).getD []) st.now c
  have h2 : (detect_cost_loop st dest neighbor c).2 =
      (detectLoopHist ((lookupA (dest, neighbor) st.loop_detection).getD [])
        st.now c).2 := rfl
  refine ⟨?_, ?_, ?_⟩
  · rw [h2]
    unfold newLoopHistory
    rw [hfst]
    unfold detectLoopHist
    split
    · next ho => simpa using Or.inl ho
    · next ho =>
      split
      · next ha => simpa using Or.inr ha
      · next ha => simp [ho, ha]
  · have h1 : (detect_cost_loop st dest neighbor c).1.loop_detection =
        insertA (dest, neighbor) (newLoopHistory st dest neighbor c)
          st.loop_detection := rfl
    rw [h1, lookupA_insertA, if_pos rfl]
  · intro h10
    unfold newLoopHistory
    rw [hfst]
    unfold trimLoopHist
    split
    · next h =>
      rw [List.length_tail, List.length_append]
      simp only [List.length_singleton]
      omega
    · next h =>
      rw [List.length_append] at h ⊢
      simp only [List.length_singleton] at h ⊢
      omega

/-- C5 (witness): at `c5State` (five prior samples) the recorded history
stays within the 10-entry cap. -/
theorem c5_witness :
    ((lookupA ("X", "N") c5State.loop_detection).getD []).length ≤ 10 ∧
    (newLoopHistory c5State "X" "N" 4).length ≤ 10 :=
  ⟨by decide,
    (c5_loop_detection_characterization c5State "X" "N" 4).2.2 (by decide)⟩

/-! ## Claim C6: the FIB cost bound -/

/-- C6: every learned (non-SELF) FIB entry has `0 < total_cost ≤ 80`, and
the bound is preserved by path selection (`recalculate_dual`), UPDATE
admission (`handle_update`), and the decay sweep, under the data-model
metric lower bounds, nonnegative topology costs, positive recorded cost
history, and nonnegative advertised costs. -/
theorem c6_cost_bound_preserved (st : RouterState) (dest sender : String)
    (routes : List RouteEntry)
    (hnb : neighborsOK st) (htp : topoNonneg st) (hch : histPos st)
    (hf : fibCostInv st) (hr : ∀ r ∈ routes, 0 ≤ r.total_delay) :
    fibCostInv (recalculate_dual st dest) ∧
    fibCostInv (handle_update st sender routes) ∧
    fibCostInv (apply_cost_decay st) :=
  ⟨(recalculate_dual_inv st dest ⟨hnb, htp, hch, hf⟩).2.2.2,
    (handle_update_inv st sender routes ⟨hnb, htp, hch, hf⟩ hr).2.2.2,
    (apply_cost_decay_inv st ⟨hnb, htp, hch, hf⟩).2.2.2⟩

/-- C6 (witness): at `c6State` ("R1" advertising "X" at cost 20 with
in-bounds metrics) recomputation installs a route and the bound holds. -/
theorem c6_witness :
    (neighborsOK c6State ∧ topoNonneg c6State ∧ histPos c6State ∧
      fibCostInv c6State ∧ ∀ r ∈ ([] : List RouteEntry), 0 ≤ r.total_delay) ∧
    fibCostInv (recalculate_dual c6State "X") :=
  ⟨⟨by with_unfolding_all decide, by decide, by decide, by decide, by decide⟩,
    (c6_cost_bound_preserved c6State "X" "R1" [] (by with_unfolding_all decide)
      (by decide) (by decide) (by decide) (by decide)).1⟩

/-! ## Claim C7: UPDATE suppression above cost 70 -/

/-- C7: `send_update(P)` emits nothing when the FIB cost for P exceeds
70; at cost ≤ 70 it emits one single-entry UPDATE for P on exactly the
interfaces that have a live link. -/
theorem c7_send_update_suppression (st : RouterState) (dest : String)
    (e : FibEntry) (h : lookupA dest st.fib = some e) :
    (70 < e.metrics.total_cost → send_update st dest = []) ∧
    (e.metrics.total_cost ≤ 70 →
      send_update st dest =
        (st.interfaces.filter fun i => i.link.isSome).map fun i =>
          (i.name,
            ({ routes := [mkRoute dest (pyInt e.metrics.total_cost)] } : UpdatePkt))) := by
  simp only [send_update, h]
  constructor
  · intro h70
    rw [if_pos h70]
  · intro h70
    rw [if_neg (not_lt.mpr h70)]
    induction st.interfaces with
    | nil => rfl
    | cons i rest ih =>
      cases hi : i.link with
      | none =>
        simp only [List.filterMap_cons, List.filter_cons, hi, Option.isSome_none,
          Bool.false_eq_true, if_false]
        exact ih
      | some l =>
        simp only [List.filterMap_cons, List.filter_cons, hi, Option.isSome_some,
          if_true, List.map_cons]
        exact congrArg₂ List.cons rfl ih

/-- C7 (witness): with the route at cost 75 nothing is emitted; at cost
40 the UPDATE for "P" goes out on the interfaces with a live link. -/
theorem c7_witness :
    (lookupA "P" c7StateHigh.fib = some ⟨"N", learnedMetrics 75⟩ ∧
      70 < (learnedMetrics 75).total_cost ∧
      lookupA "P" c7StateLow.fib = some ⟨"N", learnedMetrics 40⟩ ∧
      (learnedMetrics 40).total_cost ≤ 70) ∧
    send_update c7StateHigh "P" = [] ∧
    send_update c7StateLow "P" =
      (c7StateLow.interfaces.filter fun i => i.link.isSome).map fun i =>
        (i.name,
          ({ routes := [mkRoute "P" (pyInt (learnedMetrics 40).total_cost)] } : UpdatePkt)) :=
  ⟨⟨by decide, by norm_num [learnedMetrics], by decide,
      by norm_num [learnedMetrics]⟩,
    (c7_send_update_suppression c7StateHigh "P" ⟨"N", learnedMetrics 75⟩
      (by decide)).1 (by norm_num [learnedMetrics]),
    (c7_send_update_suppression c7StateLow "P" ⟨"N", learnedMetrics 40⟩
      (by decide)).2 (by norm_num [learnedMetrics])⟩

/-! ## Claim C8: the decay sweep -/

/-- C8: on a decay sweep, every learned FIB entry with cost above 10 is
multiplied by 0.95, and for such a prefix every topology value above 10
is likewise multiplied (values ≤ 10, and entries failing the test, are
untouched). -/
theorem c8_decay_sweep (st : RouterState) (dest : String) (e : FibEntry)
    (h : lookupA dest st.fib = some e) :
    (e.next_hop ≠ "self" ∧ 10 < e.metrics.total_cost →
      lookupA dest (apply_cost_decay st).fib =
        some { e with metrics :=
          { e.metrics with total_cost := e.metrics.total_cost * 0.95 } } ∧
      ∀ inner, lookupA dest st.topology_table = some inner →
        lookupA dest (apply_cost_decay st).topology_table =
          some (inner.map fun nv =>
            if 10 < nv.2 then (nv.1, nv.2 * 0.95) else nv)) ∧
    (¬ (e.next_hop ≠ "self" ∧ 10 < e.metrics.total_cost) →
      lookupA dest (apply_cost_decay st).fib = some e) := by
  have h1 : lookupA dest (apply_cost_decay st).fib =
      (lookupA dest st.fib).map (fun v =>
        if v.next_hop ≠ "self" ∧ 10 < v.metrics.total_cost then
          { v with metrics :=
            { v.metrics with total_cost := v.metrics.total_cost * 0.95 } }
        else v) := decay_fib_lookup st.fib dest
  have h2 : lookupA dest (apply_cost_decay st).topology_table =
      (lookupA dest st.topology_table).map (fun inner =>
        if (st.fib.filterMap fun p =>
            if p.2.next_hop ≠ "self" ∧ 10 < p.2.metrics.total_cost
            then some p.1 else none).contains dest then
          inner.map fun nv => if 10 < nv.2 then (nv.1, nv.2 * 0.95) else nv
        else inner) :=
    decay_topo_lookup st.topology_table _ dest
  constructor
  · intro hc
    constructor
    · rw [h1, h]
      simp only [Option.map_some']
      rw [if_pos hc]
    · intro inner hinner
      rw [h2, hinner]
      simp only [Option.map_some']
      rw [if_pos (contains_filterMap_of_lookupA h hc)]
  · intro hc
    rw [h1, h]
    simp only [Option.map_some']
    rw [if_neg hc]

/-- C8 (witness): a learned route at cost 40 decays to 40·0.95 = 38, and
the topology value 40 decays alongside it while the value 5 is kept. -/
theorem c8_witness :
    (lookupA "P" c8State.fib = some ⟨"N", learnedMetrics 40⟩ ∧
      (⟨"N", learnedMetrics 40⟩ : FibEntry).next_hop ≠ "self" ∧
      10 < (⟨"N", learnedMetrics 40⟩ : FibEntry).metrics.total_cost) ∧
    lookupA "P" (apply_cost_decay c8State).fib =
      some { (⟨"N", learnedMetrics 40⟩ : FibEntry) with metrics :=
        { learnedMetrics 40 with
          total_cost := (learnedMetrics 40).total_cost * 0.95 } } ∧
    (learnedMetrics 40).total_cost * 0.95 = 38 ∧
    lookupA "P" (apply_cost_decay c8State).topology_table =
      some (([("N", (40 : ℚ)), ("M", 5)]).map fun nv =>
        if 10 < nv.2 then (nv.1, nv.2 * 0.95) else nv) ∧
    (([("N", (40 : ℚ)), ("M", 5)]).map fun nv =>
        if 10 < nv.2 then (nv.1, nv.2 * 0.95) else nv) = [("N", 38), ("M", 5)] :=
  ⟨⟨by decide, by decide, by norm_num [learnedMetrics]⟩,
    ((c8_decay_sweep c8State "P" ⟨"N", learnedMetrics 40⟩ (by decide)).1
      ⟨by decide, by norm_num [learnedMetrics]⟩).1,
    by with_unfolding_all rfl,
    ((c8_decay_sweep c8State "P" ⟨"N", learnedMetrics 40⟩ (by decide)).1
      ⟨by decide, by norm_num [learnedMetrics]⟩).2 [("N", 40), ("M", 5)]
      (by decide),
    by with_unfolding_all rfl⟩

/-! ## Claim C9: no-candidate frame and removal only by reset -/

/-- C9: when path selection yields no admissible candidate,
`recalculate_dual` leaves the FIB, the topology table and the
route-change log unchanged; path recomputation never removes an installed
FIB entry; and the reset sweep removes an installed entry only if it is a
learned route with cost above 60. -/
theorem c9_no_candidate_frame (st : RouterState) (dest : String) :
    ((advanced_path_selection st dest).2 = none →
      (recalculate_dual st dest).fib = st.fib ∧
      (recalculate_dual st dest).topology_table = st.topology_table ∧
      (recalculate_dual st dest).route_changes = st.route_changes) ∧
    (∀ d e, lookupA d st.fib = some e →
      (lookupA d (recalculate_dual st dest).fib).isSome = true) ∧
    (∀ d e, lookupA d st.fib = some e →
      lookupA d (monitor_and_reset_costs st).fib = none →
      e.next_hop ≠ "self" ∧ 60 < e.metrics.total_cost) := by
  refine ⟨recalculate_dual_none_frame st dest, ?_, ?_⟩
  · intro d e he
    rcases recalculate_dual_fib_cases st dest with hcase | ⟨cand, hcase⟩
    · rw [hcase, he]
      rfl
    · rw [hcase, lookupA_insertA]
      split
      · rfl
      · rw [he]
        rfl
  · intro d e he hrem
    unfold monitor_and_reset_costs at hrem
    split at hrem
    · rw [he] at hrem
      cases hrem
    · by_cases hc : e.next_hop ≠ "self" ∧ 60 < e.metrics.total_cost
      · exact hc
      · exfalso
        have hkeep : (! isHighCost (d, e)) = true := by
          simp [isHighCost, hc]
        have hf1 : lookupA d (st.fib.filter fun p => ! isHighCost p) = some e :=
          lookupA_filter _ he hkeep
        have hsome := lookupA_foldl_insertA_isSome st.networks selfEntry
          (st.fib.filter fun p => ! isHighCost p) d (by rw [hf1]; rfl)
        have hrem' : lookupA d (st.networks.foldl
            (fun f net => insertA net selfEntry f)
            (st.fib.filter fun p => ! isHighCost p)) = none := hrem
        rw [hrem'] at hsome
        cases hsome

/-- C9 (witness): at `c9State` there is no topology entry for "X", so
recomputing "X" changes nothing and the installed route for "P"
survives. -/
theorem c9_witness :
    (advanced_path_selection c9State "X").2 = none ∧
    (recalculate_dual c9State "X").fib = c9State.fib ∧
    (lookupA "P" (recalculate_dual c9State "X").fib).isSome = true :=
  ⟨by decide,
    ((c9_no_candidate_frame c9State "X").1 (by decide)).1,
    (c9_no_candidate_frame c9State "X").2.1 "P" ⟨"N", learnedMetrics 40⟩
      (by decide)⟩

/-! ## Claim C10: pruning a dead neighbor is frame-silent -/

/-- C10: pruning removes exactly the neighbor-table entries whose
`last_seen` is more than 15 time units old; the FIB and the topology
table are untouched, so a route through a dead neighbor persists. -/
theorem c10_prune_frame (st : RouterState)
    (hnd : (st.neighbor_table.map Prod.fst).Nodup) :
    (prune_neighbors st).fib = st.fib ∧
    (prune_neighbors st).topology_table = st.topology_table ∧
    ∀ n, lookupA n (prune_neighbors st).neighbor_table =
      (match lookupA n st.neighbor_table with
        | some d => if st.now - d.last_seen ≤ 15 then some d else none
        | none => none) := by
  refine ⟨rfl, rfl, ?_⟩
  intro n
  have hchar := lookupA_filter_char
    (fun d => decide (st.now - d.last_seen ≤ 15)) st.neighbor_table hnd n
  exact hchar.trans (by cases lookupA n st.neighbor_table <;> simp)

/-- C10 (witness): at time 100, neighbor "A" (seen at 90) survives
pruning, neighbor "B" (seen at 50) is removed, and the FIB route through
"B" and the topology entry reported by "B" persist. -/
theorem c10_witness :
    (c10State.neighbor_table.map Prod.fst).Nodup ∧
    (prune_neighbors c10State).fib = c10State.fib ∧
    (prune_neighbors c10State).topology_table = c10State.topology_table ∧
    lookupA "A" (prune_neighbors c10State).neighbor_table =
      some { last_seen := 90, metrics := zeroMetrics } ∧
    lookupA "B" (prune_neighbors c10State).neighbor_table = none :=
  ⟨by decide,
    (c10_prune_frame c10State (by decide)).1,
    (c10_prune_frame c10State (by decide)).2.1,
    ((c10_prune_frame c10State (by decide)).2.2 "A").trans
      (by with_unfolding_all rfl),
    ((c10_prune_frame c10State (by decide)).2.2 "B").trans
      (by with_unfolding_all rfl)⟩

end ADUP
